import Mathlib

/-!
Verification of the aspora-orgchart CSV-to-org-chart pipeline.

The definitions below are shallow embeddings of the TypeScript source:
raw CSV records become association lists from header strings to cell
strings, the person/pod node builders become pure Lean functions, and the
blob-store POST handler becomes a state-passing function.  JavaScript
string operations (trim, toLowerCase, regex whitespace collapse) are
modelled over ASCII, which covers every string the program manipulates.
-/

/-- Whitespace test used to model the JavaScript trim and the regex
whitespace class on the ASCII range. -/
def isWsChar (c : Char) : Bool :=
  c = ' ' || c = '\t' || c = '\n' || c = '\r'

/-- Model of the JavaScript String.prototype.trim. -/
def jsTrim (s : String) : String :=
  ⟨((s.data.dropWhile isWsChar).reverse.dropWhile isWsChar).reverse⟩

/-- ASCII lower-casing of one character, modelling toLowerCase. -/
def lowerChar (c : Char) : Char :=
  if 'A' ≤ c ∧ c ≤ 'Z' then Char.ofNat (c.toNat + 32) else c

/-- Model of the JavaScript String.prototype.toLowerCase on ASCII. -/
def lowerStr (s : String) : String :=
  ⟨s.data.map lowerChar⟩

/-- `normalizeEmail` from src/app/page.tsx: trim then lower-case. -/
def normalizeEmail (v : String) : String :=
  lowerStr (jsTrim v)

/-- Boolean string-prefix test (models String.prototype.startsWith). -/
def strStarts (s pre : String) : Bool :=
  pre.data.isPrefixOf s.data

/-- `ensureHttps` from src/app/page.tsx. -/
def ensureHttps (url : String) : String :=
  let u := jsTrim url
  if u = "" then ""
  else if strStarts u "http://" || strStarts u "https://" then u
  else "https://" ++ u

/-- Uppercase hexadecimal digit for percent-encoding. -/
def hexDigit (n : Nat) : Char :=
  if n < 10 then Char.ofNat (48 + n) else Char.ofNat (55 + n)

/-- UTF-8 byte sequence of a code point, for percent-encoding. -/
def utf8Bytes (n : Nat) : List Nat :=
  if n < 128 then [n]
  else if n < 2048 then [192 + n / 64, 128 + n % 64]
  else if n < 65536 then [224 + n / 4096, 128 + (n / 64) % 64, 128 + n % 64]
  else [240 + n / 262144, 128 + (n / 4096) % 64, 128 + (n / 64) % 64, 128 + n % 64]

/-- The apostrophe character, written by code point. -/
def aposChar : Char := Char.ofNat 39

/-- Characters that encodeURIComponent leaves unescaped. -/
def isUnreserved (c : Char) : Bool :=
  c.isAlphanum || c = '-' || c = '_' || c = '.' || c = '!' || c = '~' ||
  c = '*' || c = aposChar || c = '(' || c = ')'

/-- Model of the JavaScript encodeURIComponent. -/
def encodeURIComponent (s : String) : String :=
  ⟨s.data.flatMap fun c =>
    if isUnreserved c then [c]
    else (utf8Bytes c.toNat).flatMap fun b => ['%', hexDigit (b / 16), hexDigit (b % 16)]⟩

/-- The ui-avatars fallback URL built for a person with no photo. -/
def avatarUrl (n : String) : String :=
  "https://ui-avatars.com/api/?background=eee&color=555&name=" ++ encodeURIComponent n

/-- A raw parsed CSV record: association list from header to cell value,
modelling the object Papa.parse produces for one data row. -/
def RawRow : Type := List (String × String)

/-- Field access `row[k]`: the first binding for the key, if any. -/
def rowLookup (row : RawRow) (k : String) : Option String :=
  (List.find? (fun kv => kv.1 = k) row).map (fun kv => kv.2)

/-- `pick` from src/app/page.tsx lines 41-47: return the value of the
first alias that is present in the record (even when that value is the
empty string), else the empty string. -/
def pick (row : RawRow) (keys : List String) : String :=
  match keys with
  | [] => ""
  | k :: ks =>
    match rowLookup row k with
    | some v => v
    | none => pick row ks

/-- A person chart node, as in src/app/page.tsx. -/
structure PersonNode where
  id : String
  parentId : Option String
  name : String
  email : String
  team : String
  location : String
  pod : String
  photoUrl : String
deriving DecidableEq

/-- Number of keys of a record (`Object.keys(r).length`). -/
def rowSize (r : RawRow) : Nat := List.length r

/-- Build one person node from one raw row at (post-filter) index `i`,
as the arrow body of `people` in src/app/page.tsx lines 113-145. -/
def buildPerson (i : Nat) (r : RawRow) : PersonNode :=
  let name := jsTrim (pick r ["Name"])
  let email := jsTrim (pick r ["Work Email", "Email", "Work email"])
  let managerEmail := jsTrim (pick r ["Manager Email", "Manager email"])
  let team := jsTrim (pick r ["Team"])
  let location := jsTrim (pick r ["Location", "Country"])
  let pod := jsTrim (pick r ["Pod"])
  let photo := jsTrim (pick r ["Photo URL", "Photo Url", "Photo"])
  let id := if email ≠ "" then normalizeEmail email
            else "name:" ++ lowerStr name ++ ":" ++ Nat.repr i
  let rawParent := normalizeEmail managerEmail
  { id := id
    parentId := if rawParent = "" then none else some rawParent
    name := if name ≠ "" then name else if email ≠ "" then email else "(no name)"
    email := email
    team := team
    location := location
    pod := pod
    photoUrl :=
      let ph := ensureHttps photo
      if ph ≠ "" then ph else avatarUrl (if name ≠ "" then name else "User") }

/-- Index-carrying map over the filtered rows, as `.map((r, i) => ...)`. -/
def peopleAux (i : Nat) : List RawRow → List PersonNode
  | [] => []
  | r :: rs => buildPerson i r :: peopleAux (i + 1) rs

/-- `people` from src/app/page.tsx: filter out empty records, then build
one node per row with its post-filter index. -/
def people (rows : List RawRow) : List PersonNode :=
  peopleAux 0 (rows.filter (fun r => rowSize r ≠ 0))

/-- `normalizedPeople` from src/app/page.tsx lines 148-167: null out every
parentId that is empty or does not occur among the ids of the set. -/
def normalizeParents (ps : List PersonNode) : List PersonNode :=
  let ids := ps.map (fun p => p.id)
  ps.map (fun p =>
    { p with parentId :=
        match p.parentId with
        | some pid => if pid ≠ "" ∧ pid ∈ ids then some pid else none
        | none => none })

/-- The synthetic super-root person node from src/app/page.tsx lines 187-200. -/
def superRootNode : PersonNode :=
  { id := "__root__", parentId := none, name := "Aspora", email := ""
    team := "", location := "", pod := "", photoUrl := avatarUrl "Aspora" }

/-- `hierarchyNodes` from src/app/page.tsx lines 181-207: when more than
one natural root remains, prepend the super-root and reparent every
natural root under it; otherwise return the set unchanged. -/
def hierarchyNodes (ps : List PersonNode) : List PersonNode :=
  let roots := ps.filter (fun p => p.parentId.isNone)
  if roots.length ≤ 1 then ps
  else superRootNode ::
    ps.map (fun p => if p.parentId.isNone then { p with parentId := some "__root__" } else p)

/-- `rootId` from the same memo: the single natural root's id (when
non-empty), or the super-root id when one is synthesized. -/
def rootId (ps : List PersonNode) : Option String :=
  let roots := ps.filter (fun p => p.parentId.isNone)
  if roots.length ≤ 1 then
    match roots.head? with
    | some r => if r.id = "" then none else some r.id
    | none => none
  else some "__root__"

/-- A chart node: a person, or a synthetic pod grouping node. -/
inductive ChartNode where
  | person (p : PersonNode)
  | podGroup (id : String) (parentId : String) (name : String)
deriving DecidableEq

/-- The id of a chart node. -/
def ChartNode.nodeId : ChartNode → String
  | .person p => p.id
  | .podGroup i _ _ => i

/-- The parent reference of a chart node. -/
def ChartNode.nodeParent : ChartNode → Option String
  | .person p => p.parentId
  | .podGroup _ pid _ => some pid

/-- Project a chart node to a person node, when it is one. -/
def ChartNode.personOf : ChartNode → Option PersonNode
  | .person p => some p
  | .podGroup _ _ _ => none

/-- Total lexicographic comparison on characters lists, modelling the
string ordering used for `sort(localeCompare)` on ASCII labels. -/
def strLeChars : List Char → List Char → Bool
  | [], _ => true
  | _ :: _, [] => false
  | a :: as, b :: bs => if a = b then strLeChars as bs else decide (a < b)

/-- String ordering used to model the pod-label sort. -/
def strLe (a b : String) : Bool := strLeChars a.data b.data

/-- Ordered insertion for the model sort. -/
def insertLe (a : String) : List String → List String
  | [] => [a]
  | b :: bs => if strLe a b then a :: b :: bs else b :: insertLe a bs

/-- Insertion sort modelling `Array.from(keys).sort(localeCompare)`. -/
def sortStr : List String → List String
  | [] => []
  | a :: as => insertLe a (sortStr as)

/-- The distinct non-empty pod labels of a person set — the key set of the
`idsByPod` map in src/app/page.tsx lines 170-178. -/
def distinctPods (ps : List PersonNode) : List String :=
  ((ps.map (fun p => p.pod)).filter (fun s => s ≠ "")).dedup

/-- The sorted distinct non-empty pod labels, as in line 214. -/
def podsSorted (ps : List PersonNode) : List String :=
  sortStr (distinctPods ps)

/-- The `byId` map lookup of src/app/page.tsx lines 222-226: Map.set with
later entries overwriting earlier ones, so the last occurrence wins. -/
def byIdGet (persons : List PersonNode) (pid : String) : Option PersonNode :=
  List.find? (fun q => q.id = pid) persons.reverse

/-- The arrow body of `patchedPeople` in src/app/page.tsx lines 230-240:
a person with an empty pod is returned unchanged; otherwise the manager
is looked up by id, and the person is reparented under its pod node when
the manager is missing or carries a different pod. -/
def podPatch (persons : List PersonNode) (p : PersonNode) : PersonNode :=
  if p.pod = "" then p
  else
    let mgr : Option PersonNode :=
      match p.parentId with
      | some pid => if pid = "" then none else byIdGet persons pid
      | none => none
    let mgrPod : String := match mgr with | some m => m.pod | none => ""
    if mgr.isNone ∨ mgrPod ≠ p.pod then { p with parentId := some ("pod:" ++ p.pod) }
    else p

/-- The pod-view node builder of src/app/page.tsx lines 210-243, given the
hierarchy node set, the sorted pod labels, and the root id. -/
def buildPodView (hier : List ChartNode) (pods : List String) (rid : String) :
    List ChartNode :=
  let podGroupNodes : List ChartNode :=
    pods.map (fun pod => ChartNode.podGroup ("pod:" ++ pod) rid pod)
  let persons : List PersonNode := hier.filterMap ChartNode.personOf
  let patchedPeople : List PersonNode := persons.map (podPatch persons)
  podGroupNodes ++ patchedPeople.map ChartNode.person

/-- The two tabs of the page. -/
inductive ViewMode where
  | hierarchy
  | pod
deriving DecidableEq

/-- `podNodes` from src/app/page.tsx lines 210-243 together with the
hierarchy fallback: the node set handed to the chart for a given view. -/
def viewNodes (view : ViewMode) (ps : List PersonNode) : List ChartNode :=
  let hier := (hierarchyNodes ps).map ChartNode.person
  match view with
  | .hierarchy => hier
  | .pod =>
    match rootId ps with
    | none => hier
    | some rid => buildPodView hier (podsSorted ps) rid

/-- Decidable check that every non-null parent reference in a node set
names an id present in the same set. -/
def closedChart (ns : List ChartNode) : Bool :=
  ns.all fun n =>
    match n.nodeParent with
    | none => true
    | some pid => ns.any (fun m => m.nodeId = pid)

/-- A normalized row of the src/unnamed/part_005 variant. -/
structure Row5 where
  rName : String
  rWorkEmail : String
  rManagerEmail : String
  rTeam : String
  rLocation : String
  rPhotoUrl : String
  rPod : String
deriving DecidableEq

/-- `pickField` from src/unnamed/part_005 lines 54-59: the first alias
present in the record, else the empty string. -/
def pickField (r : RawRow) (keys : List String) : String :=
  match keys with
  | [] => ""
  | k :: ks =>
    match rowLookup r k with
    | some v => v
    | none => pickField r ks

/-- The header alias table of src/unnamed/part_005 lines 44-52. -/
def aliasesName : List String := ["Name", "Full Name"]

def aliasesWorkEmail : List String := ["Work Email", "Email", "Work email"]

def aliasesManagerEmail : List String :=
  ["Manager Email", "Manager email", "Reports To Email", "Manager Email Address"]

def aliasesTeam : List String := ["Team", "Department"]

def aliasesLocn : List String := ["Location", "Country", "Office", "Country/Location"]

def aliasesPhoto : List String := ["Photo URL", "Photo", "PhotoURL", "Image", "Image URL"]

def aliasesPod : List String := ["Pod", "POD", "Product Pod", "Squad"]

/-- The per-record mapping step of `parseCsvTextToRows` in
src/unnamed/part_005 lines 73-84. -/
def mapRow5 (r : RawRow) : Row5 :=
  { rName := jsTrim (pickField r aliasesName)
    rWorkEmail := jsTrim (pickField r aliasesWorkEmail)
    rManagerEmail := jsTrim (pickField r aliasesManagerEmail)
    rTeam := jsTrim (pickField r aliasesTeam)
    rLocation := jsTrim (pickField r aliasesLocn)
    rPhotoUrl := jsTrim (pickField r aliasesPhoto)
    rPod := jsTrim (pickField r aliasesPod) }

/-- The validation loop of `parseCsvTextToRows` (src/unnamed/part_005
lines 86-89): the index of the first row whose Name is empty, counting
from `i`. -/
def firstEmptyName (i : Nat) : List Row5 → Option Nat
  | [] => none
  | r :: rs => if r.rName = "" then some i else firstEmptyName (i + 1) rs

/-- `parseCsvTextToRows` from src/unnamed/part_005 lines 61-92, after the
external Papa.parse call has produced the record list: map each record
through the alias table, then fail on the first row whose Name is empty.
The Except.error result models the `\x7b rows: [], error \x7d` return. -/
def parseCsvTextToRows (data : List RawRow) : Except String (List Row5) :=
  let rows := data.map mapRow5
  match firstEmptyName 0 rows with
  | some i => Except.error ("Row " ++ Nat.repr (i + 2) ++ ": Name is empty")
  | none => Except.ok rows

/-- Helper for `collapseWs`: the flag records whether the previous
character was whitespace, so a maximal run emits a single space. -/
def collapseWsAux : Bool → List Char → List Char
  | _, [] => []
  | prevWs, c :: cs =>
    if isWsChar c then
      if prevWs then collapseWsAux true cs else ' ' :: collapseWsAux true cs
    else c :: collapseWsAux false cs

/-- One maximal whitespace run becomes a single space, modelling the
regex replace of a whitespace-plus pattern by one space. -/
def collapseWs (l : List Char) : List Char :=
  collapseWsAux false l

/-- The right single quotation mark, by code point. -/
def curlyApos1 : Char := Char.ofNat 8217

/-- The left single quotation mark, by code point. -/
def curlyApos2 : Char := Char.ofNat 8216

/-- Replace curly apostrophes by the straight one. -/
def normAposChar (c : Char) : Char :=
  if c = curlyApos1 ∨ c = curlyApos2 then aposChar else c

/-- The canonical pod label produced for the Founders-Office variants, the
string that the literal table of src/unnamed/part_003 spells with an
apostrophe. -/
def foundersOffice : String :=
  "Founder" ++ String.singleton aposChar ++ "s Office"

/-- The literal lookup table of `normalizePod`, src/unnamed/part_003
lines 39-46; keys are matched against the lower-cased cleaned label.
The key spelled with a curly apostrophe in the source is kept here too,
although apostrophe normalization makes it unreachable. -/
def podMap : List (String × String) :=
  [("fo", foundersOffice),
   ("founders office", foundersOffice),
   ("founder" ++ String.singleton aposChar ++ "s office", foundersOffice),
   ("founder" ++ String.singleton curlyApos1 ++ "s office", foundersOffice),
   ("cx", "CX"),
   ("qa eng.", "QA Eng.")]

/-- `normalizePod` from src/unnamed/part_003 lines 28-49: trim, collapse
whitespace runs, normalize apostrophes, then look the lower-casing up in
the literal table, falling back to the cleaned label itself. -/
def normalizePod (podRaw : String) : String :=
  let p : String := ⟨(collapseWs (jsTrim podRaw).data).map normAposChar⟩
  if p = "" then ""
  else
    let key := lowerStr p
    match (List.find? (fun kv => kv.1 = key) podMap).map (fun kv => kv.2) with
    | some v => v
    | none => p

/-- A stored blob: its pathname key and the URL the store assigned. -/
structure Blob where
  key : String
  url : String
deriving DecidableEq

/-- A multipart form field value: a file upload or a plain string. -/
inductive FormEntry where
  | fileEntry (content : String)
  | strEntry (s : String)
deriving DecidableEq

/-- The body of a POST /org response. -/
inductive PostBody where
  | errBody (msg : String)
  | okBody (url : String)
deriving DecidableEq

/-- The blob key used by the route, src/unnamed/part_000 line 4. -/
def fileKey : String := "org.csv"

/-- The POST /org handler of src/unnamed/part_000 lines 22-51 as a pure
function: the environment password (none when the variable is unset),
the shared-secret request header, the multipart `file` field, the blob
store contents, and the URL the external store would assign to the new
blob.  Returns the HTTP status, the response body, and the store after
the call. -/
def postOrg (env : Option String) (header : Option String)
    (file : Option FormEntry) (store : List Blob) (newUrl : String) :
    Nat × PostBody × List Blob :=
  let adminPassword := match env with | some s => s | none => ""
  if adminPassword = "" then
    (500, PostBody.errBody "ADMIN_PASSWORD not set", store)
  else
    let provided := match header with | some s => s | none => ""
    if provided ≠ adminPassword then
      (401, PostBody.errBody "Unauthorized", store)
    else
      match file with
      | some (FormEntry.fileEntry _) =>
        let kept := store.filter (fun b => ¬ strStarts b.key fileKey)
        (200, PostBody.okBody newUrl, kept ++ [{ key := fileKey, url := newUrl }])
      | _ => (400, PostBody.errBody "Missing file", store)

/-- The normalized manager email computed for a raw row by the arrow body
of `people` in src/app/page.tsx lines 119 and 131. -/
def mgrOfRow (r : RawRow) : String :=
  normalizeEmail (jsTrim (pick r ["Manager Email", "Manager email"]))

/-- Whether the direct manager of `p` found by the `byId` lookup exists in
the person set and carries the same pod label — the negation of the
reparenting condition in src/app/page.tsx lines 233-239. -/
def managerSamePod (persons : List PersonNode) (p : PersonNode) : Bool :=
  match p.parentId with
  | some pid =>
    if pid = "" then false
    else
      match byIdGet persons pid with
      | some m => decide (m.pod = p.pod)
      | none => false
  | none => false

/-- The pod-group id of a chart node, when it is a pod node. -/
def ChartNode.podIdOf : ChartNode → Option String
  | .person _ => none
  | .podGroup i _ _ => some i

/-- Person-level closure: every non-null parent reference names an id
present in the same person set. -/
def ClosedPerson (ps : List PersonNode) : Prop :=
  ∀ p ∈ ps, ∀ pid, p.parentId = some pid → pid ∈ ps.map (fun q => q.id)

/-- C6 counterexample: in the record, the first alias "Work Email" is
present with an empty value while the later alias "Email" holds
"x@y.com"; the claim demands the first alias with a non-empty value, so
it predicts "x@y.com", but `pick` returns the empty string. -/
theorem pick_first_present_counterexample :
    pick [("Work Email", ""), ("Email", "x@y.com")]
        ["Work Email", "Email", "Work email"] = ""
    ∧ rowLookup [("Work Email", ""), ("Email", "x@y.com")] "Email" = some "x@y.com" := by
  constructor
  · rfl
  · rfl

/-- C6 (amended): for every raw CSV record and alias list, `pick` returns
the value of the first alias that is present in the record — even when
that value is the empty string — and the empty string when no alias is
present at all. -/
theorem pick_returns_first_present_alias (row : RawRow) (keys : List String) :
    pick row keys =
      match keys.find? (fun k => (rowLookup row k).isSome) with
      | some k => (rowLookup row k).getD ""
      | none => "" := by
  induction keys with
  | nil => rfl
  | cons k ks ih =>
    have e : pick row (k :: ks) =
        match rowLookup row k with
        | some v => v
        | none => pick row ks := rfl
    cases hv : rowLookup row k with
    | some v =>
      have h1 : pick row (k :: ks) = v := by rw [e, hv]
      have h2 : List.find? (fun j => (rowLookup row j).isSome) (k :: ks) = some k :=
        List.find?_cons_of_pos _ (by simp [hv])
      rw [h1, h2]
      show v = (rowLookup row k).getD ""
      rw [hv]
      rfl
    | none =>
      have h1 : pick row (k :: ks) = pick row ks := by rw [e, hv]
      have h2 : List.find? (fun j => (rowLookup row j).isSome) (k :: ks) =
          List.find? (fun j => (rowLookup row j).isSome) ks :=
        List.find?_cons_of_neg _ (by simp [hv])
      rw [h1, h2, ih]

/-- C9 counterexample: the input "cx" normalizes to the key "cx", which
the literal lookup table maps to "CX"; the claim predicts that any input
outside the Founders-Office variants is returned cleaned but otherwise
unchanged, which for "cx" would be "cx". -/
theorem normalizePod_cx_counterexample :
    normalizePod "cx" = "CX" ∧ ("CX" : String) ≠ "cx" := by
  constructor
  · rfl
  · decide

/-- C9 (amended): `normalizePod` cleans the label (trim, collapse
whitespace runs, straighten curly apostrophes) and looks its lower-casing
up in the literal table: the keys "fo", "founders office" and the
apostrophe spelling map to the canonical Founders-Office label, "cx" maps
to "CX", "qa eng." maps to "QA Eng.", an empty cleaned label yields the
empty string, and any key outside the table returns the cleaned label. -/
theorem normalizePod_table (s : String) :
    (String.mk ((collapseWs (jsTrim s).data).map normAposChar) = "" → normalizePod s = "")
    ∧ (lowerStr (String.mk ((collapseWs (jsTrim s).data).map normAposChar)) = "fo" ∨
       lowerStr (String.mk ((collapseWs (jsTrim s).data).map normAposChar)) = "founders office" ∨
       lowerStr (String.mk ((collapseWs (jsTrim s).data).map normAposChar)) =
         "founder" ++ String.singleton aposChar ++ "s office" →
        normalizePod s = foundersOffice)
    ∧ (lowerStr (String.mk ((collapseWs (jsTrim s).data).map normAposChar)) = "cx" →
        normalizePod s = "CX")
    ∧ (lowerStr (String.mk ((collapseWs (jsTrim s).data).map normAposChar)) = "qa eng." →
        normalizePod s = "QA Eng.")
    ∧ (String.mk ((collapseWs (jsTrim s).data).map normAposChar) ≠ "" →
       (∀ k ∈ podMap.map (fun kv => kv.1),
          lowerStr (String.mk ((collapseWs (jsTrim s).data).map normAposChar)) ≠ k) →
        normalizePod s = String.mk ((collapseWs (jsTrim s).data).map normAposChar)) := by
  have huf : normalizePod s =
      if String.mk ((collapseWs (jsTrim s).data).map normAposChar) = "" then ""
      else
        match (List.find? (fun kv =>
            kv.1 = lowerStr (String.mk ((collapseWs (jsTrim s).data).map normAposChar))) podMap).map
            (fun kv => kv.2) with
        | some v => v
        | none => String.mk ((collapseWs (jsTrim s).data).map normAposChar) := rfl
  refine ⟨?_, ?_, ?_, ?_, ?_⟩
  · intro hpe
    rw [huf, if_pos hpe]
  · intro hkey
    have hpe : String.mk ((collapseWs (jsTrim s).data).map normAposChar) ≠ "" := by
      intro h0
      rw [h0] at hkey
      rcases hkey with h | h | h <;> exact absurd h (by decide)
    rcases hkey with h | h | h <;> rw [huf, if_neg hpe, h] <;> rfl
  · intro h
    have hpe : String.mk ((collapseWs (jsTrim s).data).map normAposChar) ≠ "" := by
      intro h0
      rw [h0] at h
      exact absurd h (by decide)
    rw [huf, if_neg hpe, h]
    rfl
  · intro h
    have hpe : String.mk ((collapseWs (jsTrim s).data).map normAposChar) ≠ "" := by
      intro h0
      rw [h0] at h
      exact absurd h (by decide)
    rw [huf, if_neg hpe, h]
    rfl
  · intro hpe hnot
    have hfind : List.find? (fun kv =>
        kv.1 = lowerStr (String.mk ((collapseWs (jsTrim s).data).map normAposChar))) podMap
        = none := by
      rw [List.find?_eq_none]
      intro kv hkv
      simp only [decide_eq_true_eq]
      intro hq
      exact hnot kv.1 (List.mem_map_of_mem _ hkv) hq.symm
    rw [huf, if_neg hpe, hfind]
    rfl

/-- C7: the POST /org handler returns 500 when the admin password is
unconfigured, 401 when the shared-secret header does not equal the
configured password, 400 when the multipart `file` field is missing or
not a file; otherwise it deletes all prior blob versions under the key,
stores the upload, and answers 200 with the new blob URL as its body. -/
theorem postOrg_statuses (env header : Option String) (file : Option FormEntry)
    (store : List Blob) (newUrl : String) :
    (env.getD "" = "" →
      postOrg env header file store newUrl =
        (500, PostBody.errBody "ADMIN_PASSWORD not set", store))
    ∧ (∀ pw, env = some pw → pw ≠ "" → header.getD "" ≠ pw →
      postOrg env header file store newUrl =
        (401, PostBody.errBody "Unauthorized", store))
    ∧ (∀ pw, env = some pw → pw ≠ "" → header.getD "" = pw →
      (∀ c, file ≠ some (FormEntry.fileEntry c)) →
      postOrg env header file store newUrl =
        (400, PostBody.errBody "Missing file", store))
    ∧ (∀ pw c, env = some pw → pw ≠ "" → header.getD "" = pw →
      file = some (FormEntry.fileEntry c) →
      postOrg env header file store newUrl =
        (200, PostBody.okBody newUrl,
         store.filter (fun b => ¬ strStarts b.key fileKey) ++
           [{ key := fileKey, url := newUrl }])) := by
  have henv : (match env with | some s => s | none => "") = env.getD "" := by
    cases env <;> rfl
  have hhdr : (match header with | some s => s | none => "") = header.getD "" := by
    cases header <;> rfl
  refine ⟨?_, ?_, ?_, ?_⟩
  · intro h
    unfold postOrg
    rw [henv, if_pos h]
  · intro pw hpw hne hmis
    unfold postOrg
    rw [henv, hpw]
    have h1 : (some pw).getD "" = pw := rfl
    rw [h1, if_neg hne, hhdr, if_pos hmis]
  · intro pw hpw hne hmatch hnofile
    unfold postOrg
    rw [henv, hpw]
    have h1 : (some pw).getD "" = pw := rfl
    rw [h1, if_neg hne, hhdr, if_neg (by rw [hmatch]; exact fun h => h rfl)]
    cases file with
    | none => rfl
    | some fe =>
      cases fe with
      | fileEntry c => exact absurd rfl (hnofile c)
      | strEntry s0 => rfl
  · intro pw c hpw hne hmatch hfile
    unfold postOrg
    rw [henv, hpw]
    have h1 : (some pw).getD "" = pw := rfl
    rw [h1, if_neg hne, hhdr, if_neg (by rw [hmatch]; exact fun h => h rfl), hfile]

/-- C7 witness: the four branches of the status theorem evaluated at
concrete requests against an empty store. -/
theorem postOrg_statuses_witness :
    (postOrg none (some "pw") none [] "u").1 = 500
    ∧ (postOrg (some "pw") (some "wrong") none [] "u").1 = 401
    ∧ (postOrg (some "pw") (some "pw") none [] "u").1 = 400
    ∧ postOrg (some "pw") (some "pw") (some (FormEntry.fileEntry "csv"))
        [{ key := "org.csv", url := "old" }] "u" =
      (200, PostBody.okBody "u", [{ key := "org.csv", url := "u" }]) := by
  refine ⟨?_, ?_, ?_, ?_⟩
  · rw [(postOrg_statuses none (some "pw") none [] "u").1 (by rfl)]
  · rw [(postOrg_statuses (some "pw") (some "wrong") none [] "u").2.1 "pw" rfl
      (by decide) (by decide)]
  · rw [(postOrg_statuses (some "pw") (some "pw") none [] "u").2.2.1 "pw" rfl
      (by decide) rfl (fun c => by intro h; cases h)]
  · rw [(postOrg_statuses (some "pw") (some "pw") (some (FormEntry.fileEntry "csv"))
      [{ key := "org.csv", url := "old" }] "u").2.2.2 "pw" "csv" rfl
      (by decide) rfl rfl]
    decide

/-- Positions and minimality of `firstEmptyName`: a hit at `j` starting
from `n` means row `j - n` is the first empty-Name row of the list. -/
theorem firstEmptyName_spec (l : List Row5) :
    ∀ n j, firstEmptyName n l = some j →
      ∃ i, j = n + i
        ∧ (l[i]?.map (fun r => r.rName) = some "")
        ∧ ∀ k, k < i → ∀ r, l[k]? = some r → r.rName ≠ "" := by
  induction l with
  | nil => intro n j h; exact absurd h (by simp [firstEmptyName])
  | cons r rs ih =>
    intro n j h
    have e : firstEmptyName n (r :: rs) =
        if r.rName = "" then some n else firstEmptyName (n + 1) rs := rfl
    by_cases hr : r.rName = ""
    · refine ⟨0, ?_, ?_, ?_⟩
      · rw [e, if_pos hr] at h
        cases h
        rfl
      · simp [hr]
      · intro k hk
        exact absurd hk (Nat.not_lt_zero k)
    · rw [e, if_neg hr] at h
      obtain ⟨i, hji, hget, hmin⟩ := ih (n + 1) j h
      refine ⟨i + 1, by omega, by simpa using hget, ?_⟩
      intro k hk q hq
      cases k with
      | zero =>
        simp only [List.getElem?_cons_zero, Option.some_inj] at hq
        exact hq ▸ hr
      | succ m =>
        have : m < i := by omega
        exact hmin m this q (by simpa using hq)

/-- `firstEmptyName` finds a hit whenever some row has an empty Name. -/
theorem firstEmptyName_isSome (l : List Row5) :
    ∀ n, (∃ r ∈ l, r.rName = "") → (firstEmptyName n l).isSome = true := by
  induction l with
  | nil => intro n h; exact absurd h (by simp)
  | cons r rs ih =>
    intro n h
    have e : firstEmptyName n (r :: rs) =
        if r.rName = "" then some n else firstEmptyName (n + 1) rs := rfl
    by_cases hr : r.rName = ""
    · rw [e, if_pos hr]
      rfl
    · rw [e, if_neg hr]
      apply ih
      obtain ⟨q, hq, hqe⟩ := h
      cases List.mem_cons.mp hq with
      | inl he => exact absurd hqe (he ▸ hr)
      | inr ht => exact ⟨q, ht, hqe⟩

/-- C8: when some normalized data row has an empty Name, the row
normalizer of src/unnamed/part_005 fails with an error naming that
first failing row's number — its index plus 2 — and returns no rows. -/
theorem parseCsv_empty_name_fails (data : List RawRow)
    (h : ∃ r ∈ data.map mapRow5, r.rName = "") :
    ∃ j, ((data.map mapRow5)[j]?.map (fun r => r.rName) = some "")
      ∧ (∀ k, k < j → ∀ r, (data.map mapRow5)[k]? = some r → r.rName ≠ "")
      ∧ parseCsvTextToRows data =
          Except.error ("Row " ++ Nat.repr (j + 2) ++ ": Name is empty") := by
  have hsome := firstEmptyName_isSome (data.map mapRow5) 0 h
  obtain ⟨j, hj⟩ := Option.isSome_iff_exists.mp hsome
  obtain ⟨i, hji, hget, hmin⟩ := firstEmptyName_spec (data.map mapRow5) 0 j hj
  have hij : j = i := by omega
  refine ⟨j, ?_, ?_, ?_⟩
  · rw [hij]; exact hget
  · intro k hk; rw [hij] at hk; exact hmin k hk
  · have e : parseCsvTextToRows data =
        match firstEmptyName 0 (data.map mapRow5) with
        | some i => Except.error ("Row " ++ Nat.repr (i + 2) ++ ": Name is empty")
        | none => Except.ok (data.map mapRow5) := rfl
    rw [e, hj]

/-- C8 witness: a three-record input whose second data row has an empty
Name after normalization fails with "Row 4: Name is empty". -/
theorem parseCsv_empty_name_fails_witness :
    ∃ j : Nat, ((([[("Name", "A")], [("Name", "B")], [("Name", "  ")]] : List RawRow).map
              mapRow5)[j]?.map (fun (r : Row5) => r.rName) = some "")
      ∧ (∀ k : Nat, k < j → ∀ (r : Row5),
            (([[("Name", "A")], [("Name", "B")], [("Name", "  ")]] : List RawRow).map
              mapRow5)[k]? = some r →
            r.rName ≠ "")
      ∧ parseCsvTextToRows [[("Name", "A")], [("Name", "B")], [("Name", "  ")]] =
          Except.error ("Row " ++ Nat.repr (j + 2) ++ ": Name is empty") := by
  exact parseCsv_empty_name_fails [[("Name", "A")], [("Name", "B")], [("Name", "  ")]]
    (by decide)

/-- C9 witness: the table theorem applied at "  FO " (a Founders-Office
variant) and at "Growth" (a label outside the table). -/
theorem normalizePod_table_witness :
    normalizePod "  FO " = foundersOffice ∧ normalizePod "Growth" = "Growth" := by
  constructor
  · exact (normalizePod_table "  FO ").2.1 (Or.inl (by decide))
  · exact (normalizePod_table "Growth").2.2.2.2 (by decide) (by decide)

theorem podPatch_fields (persons : List PersonNode) (p : PersonNode) :
    (podPatch persons p).id = p.id ∧ (podPatch persons p).name = p.name
    ∧ (podPatch persons p).email = p.email ∧ (podPatch persons p).team = p.team
    ∧ (podPatch persons p).location = p.location ∧ (podPatch persons p).pod = p.pod
    ∧ (podPatch persons p).photoUrl = p.photoUrl := by
  unfold podPatch
  repeat' split
  all_goals try dsimp only []
  repeat' split
  all_goals exact ⟨rfl, rfl, rfl, rfl, rfl, rfl, rfl⟩

theorem podPatch_id (persons : List PersonNode) (p : PersonNode) :
    (podPatch persons p).id = p.id :=
  (podPatch_fields persons p).1

theorem filterMap_personOf_map_person (l : List PersonNode) :
    (l.map ChartNode.person).filterMap ChartNode.personOf = l := by
  induction l with
  | nil => rfl
  | cons p ps ih => simp [List.filterMap_cons, ChartNode.personOf, ih]

theorem filterMap_personOf_map_podGroup (pods : List String) (rid : String) :
    ((pods.map (fun pod => ChartNode.podGroup ("pod:" ++ pod) rid pod)).filterMap
      ChartNode.personOf) = [] := by
  induction pods with
  | nil => rfl
  | cons s ss ih => simp [List.filterMap_cons, ChartNode.personOf, ih]

theorem buildPodView_persons (hier : List ChartNode) (pods : List String) (rid : String) :
    (buildPodView hier pods rid).filterMap ChartNode.personOf =
      (hier.filterMap ChartNode.personOf).map
        (podPatch (hier.filterMap ChartNode.personOf)) := by
  unfold buildPodView
  rw [List.filterMap_append, filterMap_personOf_map_podGroup,
    filterMap_personOf_map_person]
  rfl

/-- C10: the pod-view transformation emits exactly one person node per
person node of the input chart set, in order, and changes no field other
than parentId — name, email, team, location, pod and photoUrl survive
unchanged (and so does the id). -/
theorem podView_preserves_person_fields (hier : List ChartNode) (pods : List String)
    (rid : String) :
    List.Forall₂ (fun p q => q.id = p.id ∧ q.name = p.name ∧ q.email = p.email
        ∧ q.team = p.team ∧ q.location = p.location ∧ q.pod = p.pod
        ∧ q.photoUrl = p.photoUrl)
      (hier.filterMap ChartNode.personOf)
      ((buildPodView hier pods rid).filterMap ChartNode.personOf) := by
  rw [buildPodView_persons]
  rw [List.forall₂_map_right_iff]
  rw [List.forall₂_same]
  intro p _
  exact podPatch_fields (hier.filterMap ChartNode.personOf) p

theorem hierarchyNodes_eq (ps : List PersonNode) :
    hierarchyNodes ps =
      if (ps.filter (fun p => p.parentId.isNone)).length ≤ 1 then ps
      else superRootNode ::
        ps.map (fun p =>
          if p.parentId.isNone then { p with parentId := some "__root__" } else p) := rfl

theorem rootId_eq (ps : List PersonNode) :
    rootId ps =
      if (ps.filter (fun p => p.parentId.isNone)).length ≤ 1 then
        match (ps.filter (fun p => p.parentId.isNone)).head? with
        | some r => if r.id = "" then none else some r.id
        | none => none
      else some "__root__" := rfl

/-- C3: when the normalized person set has more than one natural root the
hierarchy output has exactly one node with a null parentId, contains the
synthetic super-root, reparents every natural root under the super-root
id, and keeps every node that had a non-null parentId; with at most one
natural root the output is the input unchanged. -/
theorem hierarchy_super_root (ps : List PersonNode) :
    ((ps.filter (fun p => p.parentId.isNone)).length ≤ 1 → hierarchyNodes ps = ps)
    ∧ (1 < (ps.filter (fun p => p.parentId.isNone)).length →
        (hierarchyNodes ps).countP (fun p => p.parentId.isNone) = 1
        ∧ superRootNode ∈ hierarchyNodes ps
        ∧ ∀ p ∈ ps,
            (p.parentId = none →
              ({ p with parentId := some "__root__" } : PersonNode) ∈ hierarchyNodes ps)
            ∧ (∀ pid, p.parentId = some pid → p ∈ hierarchyNodes ps)) := by
  constructor
  · intro h
    rw [hierarchyNodes_eq, if_pos h]
  · intro h
    have hne := Nat.not_le.mpr h
    rw [hierarchyNodes_eq, if_neg hne]
    refine ⟨?_, List.mem_cons_self _ _, ?_⟩
    · rw [List.countP_cons]
      have hsup : (fun (p : PersonNode) => p.parentId.isNone) superRootNode = true := rfl
      rw [if_pos hsup]
      have hz : (ps.map (fun p =>
          if p.parentId.isNone then { p with parentId := some "__root__" } else p)).countP
          (fun p => p.parentId.isNone) = 0 := by
        rw [List.countP_eq_zero]
        intro q hq
        obtain ⟨p, _, rfl⟩ := List.mem_map.mp hq
        by_cases hp : p.parentId.isNone
        · rw [if_pos hp]
          simp
        · rw [if_neg hp]
          simpa using hp
      rw [hz]
    · intro p hp
      constructor
      · intro hroot
        apply List.mem_cons_of_mem
        apply List.mem_map.mpr
        refine ⟨p, hp, ?_⟩
        rw [if_pos (by rw [hroot]; rfl)]
      · intro pid hpid
        apply List.mem_cons_of_mem
        apply List.mem_map.mpr
        refine ⟨p, hp, ?_⟩
        rw [if_neg (by rw [hpid]; exact fun h => nomatch h)]

/-- C3 witness: the super-root branch applied to a two-root set, and the
unchanged branch applied to a single-root set. -/
theorem hierarchy_super_root_witness :
    (hierarchyNodes [PersonNode.mk "a" none "A" "" "" "" "" "",
        PersonNode.mk "b" none "B" "" "" "" "" ""]).countP
        (fun p => p.parentId.isNone) = 1
    ∧ hierarchyNodes [PersonNode.mk "a" none "A" "" "" "" "" ""] =
      [PersonNode.mk "a" none "A" "" "" "" "" ""] := by
  constructor
  · exact ((hierarchy_super_root _).2 (by decide)).1
  · exact (hierarchy_super_root _).1 (by decide)

theorem closedChart_eq_true_iff (ns : List ChartNode) :
    closedChart ns = true ↔
      ∀ n ∈ ns, ∀ pid, n.nodeParent = some pid → pid ∈ ns.map ChartNode.nodeId := by
  unfold closedChart
  rw [List.all_eq_true]
  constructor
  · intro h n hn pid hpid
    have hx := h n hn
    rw [hpid] at hx
    simp only [List.any_eq_true, decide_eq_true_eq] at hx
    obtain ⟨m, hm, hmid⟩ := hx
    exact List.mem_map.mpr ⟨m, hm, hmid⟩
  · intro h n hn
    cases hpar : n.nodeParent with
    | none => rfl
    | some pid =>
      show (ns.any fun m => decide (m.nodeId = pid)) = true
      simp only [List.any_eq_true, decide_eq_true_eq]
      obtain ⟨m, hm, hmid⟩ := List.mem_map.mp (h n hn pid hpar)
      exact ⟨m, hm, hmid⟩

theorem normalizeParents_eq (ps : List PersonNode) :
    normalizeParents ps = ps.map (fun p =>
      { p with parentId :=
          match p.parentId with
          | some pid =>
            if pid ≠ "" ∧ pid ∈ ps.map (fun q => q.id) then some pid else none
          | none => none }) := rfl

theorem normalizeParents_map_id (ps : List PersonNode) :
    (normalizeParents ps).map (fun p => p.id) = ps.map (fun p => p.id) := by
  rw [normalizeParents_eq, List.map_map]
  rfl

theorem normalizeParents_map_pod (ps : List PersonNode) :
    (normalizeParents ps).map (fun p => p.pod) = ps.map (fun p => p.pod) := by
  rw [normalizeParents_eq, List.map_map]
  rfl

theorem normalizeParents_closed (ps : List PersonNode) :
    ClosedPerson (normalizeParents ps) := by
  intro q hq pid hpid
  rw [normalizeParents_eq] at hq
  obtain ⟨p, hp, rfl⟩ := List.mem_map.mp hq
  rw [normalizeParents_map_id]
  have e : ({ p with parentId :=
      match p.parentId with
      | some pid =>
        if pid ≠ "" ∧ pid ∈ ps.map (fun q => q.id) then some pid else none
      | none => none } : PersonNode).parentId =
      (match p.parentId with
      | some pid =>
        if pid ≠ "" ∧ pid ∈ ps.map (fun q => q.id) then some pid else none
      | none => none) := rfl
  rw [e] at hpid
  split at hpid
  · split at hpid
    · rename_i hc
      cases hpid
      exact hc.2
    · exact absurd hpid (by simp)
  · exact absurd hpid (by simp)

theorem hierarchyNodes_map_id (ps : List PersonNode) :
    (hierarchyNodes ps).map (fun p => p.id) = ps.map (fun p => p.id)
    ∨ (hierarchyNodes ps).map (fun p => p.id) = "__root__" :: ps.map (fun p => p.id) := by
  rw [hierarchyNodes_eq]
  by_cases h : (ps.filter (fun p => p.parentId.isNone)).length ≤ 1
  · left
    rw [if_pos h]
  · right
    rw [if_neg h]
    rw [List.map_cons, List.map_map]
    have : (fun p => p.id) ∘ (fun (p : PersonNode) =>
        if p.parentId.isNone then { p with parentId := some "__root__" } else p) =
        fun (p : PersonNode) => p.id := by
      funext p
      by_cases hp : p.parentId.isNone
      · simp only [Function.comp, if_pos hp]
      · simp only [Function.comp, if_neg hp]
    rw [this]
    rfl

theorem hierarchyNodes_closed (ps : List PersonNode) (h : ClosedPerson ps) :
    ClosedPerson (hierarchyNodes ps) := by
  intro q hq pid hpid
  rw [hierarchyNodes_eq] at hq
  by_cases hroots : (ps.filter (fun p => p.parentId.isNone)).length ≤ 1
  · rw [if_pos hroots] at hq
    rcases hierarchyNodes_map_id ps with hid | hid
    · rw [hid]
      exact h q hq pid hpid
    · rw [hid]
      exact List.mem_cons_of_mem _ (h q hq pid hpid)
  · rw [if_neg hroots] at hq
    have hid : (hierarchyNodes ps).map (fun p => p.id) =
        "__root__" :: ps.map (fun p => p.id) := by
      rcases hierarchyNodes_map_id ps with hid | hid
      · exfalso
        rw [hierarchyNodes_eq, if_neg hroots] at hid
        have hlen := congrArg List.length hid
        simp only [List.length_map, List.length_cons] at hlen
        omega
      · exact hid
    rw [hid]
    cases List.mem_cons.mp hq with
    | inl hsup =>
      rw [hsup] at hpid
      exact absurd hpid (by simp [superRootNode])
    | inr hmem =>
      obtain ⟨p, hp, rfl⟩ := List.mem_map.mp hmem
      by_cases hpn : p.parentId.isNone
      · rw [if_pos hpn] at hpid
        have : some "__root__" = some pid := hpid
        cases this
        exact List.mem_cons_self _ _
      · rw [if_neg hpn] at hpid
        exact List.mem_cons_of_mem _ (h p hp pid hpid)

theorem hierarchyNodes_pods (ps : List PersonNode) :
    ∀ q ∈ hierarchyNodes ps, q.pod = "" ∨ q.pod ∈ ps.map (fun p => p.pod) := by
  intro q hq
  rw [hierarchyNodes_eq] at hq
  by_cases hroots : (ps.filter (fun p => p.parentId.isNone)).length ≤ 1
  · rw [if_pos hroots] at hq
    exact Or.inr (List.mem_map.mpr ⟨q, hq, rfl⟩)
  · rw [if_neg hroots] at hq
    cases List.mem_cons.mp hq with
    | inl hsup => exact Or.inl (by rw [hsup]; rfl)
    | inr hmem =>
      obtain ⟨p, hp, rfl⟩ := List.mem_map.mp hmem
      right
      by_cases hpn : p.parentId.isNone
      · rw [if_pos hpn]
        exact List.mem_map.mpr ⟨p, hp, rfl⟩
      · rw [if_neg hpn]
        exact List.mem_map.mpr ⟨p, hp, rfl⟩

theorem insertLe_perm (a : String) (l : List String) : (insertLe a l).Perm (a :: l) := by
  induction l with
  | nil => exact List.Perm.refl _
  | cons b bs ih =>
    unfold insertLe
    by_cases h : strLe a b
    · rw [if_pos h]
    · rw [if_neg h]
      exact (List.Perm.cons b ih).trans (List.Perm.swap a b bs)

theorem sortStr_perm (l : List String) : (sortStr l).Perm l := by
  induction l with
  | nil => exact List.Perm.refl _
  | cons a as ih =>
    unfold sortStr
    exact (insertLe_perm a (sortStr as)).trans (List.Perm.cons a ih)

theorem mem_podsSorted (ps : List PersonNode) (s : String) :
    s ∈ podsSorted ps ↔ s ≠ "" ∧ s ∈ ps.map (fun p => p.pod) := by
  unfold podsSorted distinctPods
  rw [(sortStr_perm _).mem_iff, List.mem_dedup, List.mem_filter]
  constructor
  · intro ⟨h1, h2⟩
    exact ⟨by simpa using h2, h1⟩
  · intro ⟨h1, h2⟩
    exact ⟨h2, by simpa using h1⟩

theorem nodup_podsSorted (ps : List PersonNode) : (podsSorted ps).Nodup := by
  unfold podsSorted
  exact ((sortStr_perm _).nodup_iff).mpr (List.nodup_dedup _)

theorem byIdGet_some (persons : List PersonNode) (pid : String) (m : PersonNode)
    (h : byIdGet persons pid = some m) : m ∈ persons ∧ m.id = pid := by
  unfold byIdGet at h
  have hmem := List.mem_of_find?_eq_some h
  have hpred := List.find?_some h
  exact ⟨List.mem_reverse.mp hmem, by simpa using hpred⟩

theorem podPatch_parent (persons : List PersonNode) (p : PersonNode) :
    (podPatch persons p).parentId =
      if p.pod = "" then p.parentId
      else
        match p.parentId with
        | none => some ("pod:" ++ p.pod)
        | some pid =>
          if pid = "" then some ("pod:" ++ p.pod)
          else
            match byIdGet persons pid with
            | none => some ("pod:" ++ p.pod)
            | some m =>
              if m.pod ≠ p.pod then some ("pod:" ++ p.pod) else p.parentId := by
  unfold podPatch
  by_cases hpe : p.pod = ""
  · rw [if_pos hpe, if_pos hpe]
  · rw [if_neg hpe, if_neg hpe]
    cases hpar : p.parentId with
    | none => rfl
    | some pid =>
      dsimp only []
      by_cases hz : pid = ""
      · subst hz
        rfl
      · rw [if_neg hz, if_neg hz]
        cases hby : byIdGet persons pid with
        | none => rfl
        | some m =>
          dsimp only []
          by_cases hmp : m.pod = p.pod
          · rw [if_neg (show ¬((some m).isNone = true ∨ m.pod ≠ p.pod) from by
              intro hor
              rcases hor with h1 | h2
              · exact absurd h1 (by simp)
              · exact h2 hmp), if_neg (fun hne => hne hmp)]
            exact hpar
          · rw [if_pos (Or.inr hmp), if_pos hmp]

theorem buildPodView_ids (hier : List ChartNode) (pods : List String) (rid : String) :
    (buildPodView hier pods rid).map ChartNode.nodeId =
      pods.map (fun pod => "pod:" ++ pod) ++
        (hier.filterMap ChartNode.personOf).map (fun p => p.id) := by
  unfold buildPodView
  rw [List.map_append, List.map_map, List.map_map, List.map_map]
  congr 1
  apply List.map_congr_left
  intro p _
  exact podPatch_id _ p

theorem buildPodView_closed (hier : List ChartNode) (pods : List String) (rid : String)
    (hclosed : ClosedPerson (hier.filterMap ChartNode.personOf))
    (hrid : rid ∈ (hier.filterMap ChartNode.personOf).map (fun p => p.id))
    (hpods : ∀ p ∈ hier.filterMap ChartNode.personOf, p.pod ≠ "" → p.pod ∈ pods) :
    closedChart (buildPodView hier pods rid) = true := by
  rw [closedChart_eq_true_iff]
  intro n hn pid hpid
  rw [buildPodView_ids]
  have hbody : buildPodView hier pods rid =
      pods.map (fun pod => ChartNode.podGroup ("pod:" ++ pod) rid pod) ++
        ((hier.filterMap ChartNode.personOf).map
          (podPatch (hier.filterMap ChartNode.personOf))).map ChartNode.person := rfl
  rw [hbody] at hn
  rcases List.mem_append.mp hn with hpod | hper
  · obtain ⟨pod, _, rfl⟩ := List.mem_map.mp hpod
    have : some rid = some pid := hpid
    cases this
    exact List.mem_append.mpr (Or.inr hrid)
  · obtain ⟨q, hq, rfl⟩ := List.mem_map.mp hper
    obtain ⟨p, hp, rfl⟩ := List.mem_map.mp hq
    have hpid2 : (podPatch (hier.filterMap ChartNode.personOf) p).parentId = some pid :=
      hpid
    rw [podPatch_parent] at hpid2
    by_cases hpe : p.pod = ""
    · rw [if_pos hpe] at hpid2
      exact List.mem_append.mpr (Or.inr (hclosed p hp pid hpid2))
    · rw [if_neg hpe] at hpid2
      have hpodmem : "pod:" ++ p.pod ∈ pods.map (fun pod => "pod:" ++ pod) :=
        List.mem_map.mpr ⟨p.pod, hpods p hp hpe, rfl⟩
      split at hpid2
      · cases hpid2
        exact List.mem_append.mpr (Or.inl hpodmem)
      · rename_i pid0 hpar
        split at hpid2
        · cases hpid2
          exact List.mem_append.mpr (Or.inl hpodmem)
        · rename_i hz
          split at hpid2
          · cases hpid2
            exact List.mem_append.mpr (Or.inl hpodmem)
          · rename_i m hby
            split at hpid2
            · cases hpid2
              exact List.mem_append.mpr (Or.inl hpodmem)
            · rw [hpar] at hpid2
              cases hpid2
              obtain ⟨hmem, hmid⟩ := byIdGet_some _ _ _ hby
              exact List.mem_append.mpr
                (Or.inr (List.mem_map.mpr ⟨m, hmem, hmid⟩))

theorem rootId_mem (ps : List PersonNode) (rid : String) (h : rootId ps = some rid) :
    rid ∈ (hierarchyNodes ps).map (fun p => p.id) := by
  rw [rootId_eq] at h
  by_cases hroots : (ps.filter (fun p => p.parentId.isNone)).length ≤ 1
  · rw [if_pos hroots] at h
    cases hfl : ps.filter (fun p => p.parentId.isNone) with
    | nil =>
      rw [hfl] at h
      exact absurd h (by simp)
    | cons r rs =>
      rw [hfl] at h
      have hh : (if r.id = "" then none else some r.id) = some rid := h
      by_cases hz : r.id = ""
      · rw [if_pos hz] at hh
        exact absurd hh (by simp)
      · rw [if_neg hz] at hh
        cases hh
        have hrmem : r ∈ ps := by
          have : r ∈ ps.filter (fun p => p.parentId.isNone) := by
            rw [hfl]
            exact List.mem_cons_self _ _
          exact (List.mem_filter.mp this).1
        rw [hierarchyNodes_eq, if_pos hroots]
        exact List.mem_map.mpr ⟨r, hrmem, rfl⟩
  · rw [if_neg hroots] at h
    cases h
    rw [hierarchyNodes_eq, if_neg hroots, List.map_cons]
    exact List.mem_cons_self _ _

theorem map_person_nodeId (l : List PersonNode) :
    (l.map ChartNode.person).map ChartNode.nodeId = l.map (fun p => p.id) := by
  rw [List.map_map]
  rfl

theorem closedChart_map_person (l : List PersonNode) (h : ClosedPerson l) :
    closedChart (l.map ChartNode.person) = true := by
  rw [closedChart_eq_true_iff]
  intro n hn pid hpid
  obtain ⟨p, hp, rfl⟩ := List.mem_map.mp hn
  rw [map_person_nodeId]
  exact h p hp pid hpid

theorem viewNodes_closed (view : ViewMode) (ps : List PersonNode) (h : ClosedPerson ps) :
    closedChart (viewNodes view ps) = true := by
  cases view with
  | hierarchy =>
    exact closedChart_map_person _ (hierarchyNodes_closed ps h)
  | pod =>
    cases hr : rootId ps with
    | none =>
      have e : viewNodes ViewMode.pod ps =
          match rootId ps with
          | none => (hierarchyNodes ps).map ChartNode.person
          | some rid =>
            buildPodView ((hierarchyNodes ps).map ChartNode.person) (podsSorted ps) rid :=
        rfl
      rw [e, hr]
      exact closedChart_map_person _ (hierarchyNodes_closed ps h)
    | some rid =>
      have e : viewNodes ViewMode.pod ps =
          match rootId ps with
          | none => (hierarchyNodes ps).map ChartNode.person
          | some rid =>
            buildPodView ((hierarchyNodes ps).map ChartNode.person) (podsSorted ps) rid :=
        rfl
      rw [e, hr]
      apply buildPodView_closed
      · rw [filterMap_personOf_map_person]
        exact hierarchyNodes_closed ps h
      · rw [filterMap_personOf_map_person]
        exact rootId_mem ps rid hr
      · rw [filterMap_personOf_map_person]
        intro p hp hne
        rcases hierarchyNodes_pods ps p hp with hempty | hmem
        · exact absurd hempty hne
        · exact (mem_podsSorted ps p.pod).mpr ⟨hne, hmem⟩

/-- C1: for every list of input rows and for each view, every node of the
builder output whose parent reference is non-null points at an id that is
present in the same output set — no dangling references survive. -/
theorem view_no_dangling_parents (rows : List RawRow) (view : ViewMode) :
    closedChart (viewNodes view (normalizeParents (people rows))) = true :=
  viewNodes_closed view (normalizeParents (people rows))
    (normalizeParents_closed (people rows))

/-- C2 counterexample: on the two-row input from the claim, row B's
manager email "a@x.com" equals B's own id, so the post-pass keeps it —
B stays a non-root child of itself, A is the only natural root, and no
super-root node is synthesized (the claim predicts B becomes a root and
a super-root parents both A and B). -/
theorem self_manager_counterexample :
    ((hierarchyNodes (normalizeParents (people
      [[("Name", "A"), ("Manager Email", "")],
       [("Name", "B"), ("Work Email", "a@x.com"), ("Manager Email", "a@x.com")]]))).map
      (fun p => (p.id, p.parentId))) =
      [("name:a:0", none), ("a@x.com", some "a@x.com")] := by
  decide

theorem buildPerson_parentId (i : Nat) (r : RawRow) :
    (buildPerson i r).parentId =
      if mgrOfRow r = "" then none else some (mgrOfRow r) := rfl

theorem peopleAux_getElem (l : List RawRow) :
    ∀ n i, (peopleAux n l)[i]? = (l[i]?).map (fun r => buildPerson (n + i) r) := by
  induction l with
  | nil => intro n i; simp [peopleAux]
  | cons r rs ih =>
    intro n i
    have e : peopleAux n (r :: rs) = buildPerson n r :: peopleAux (n + 1) rs := rfl
    cases i with
    | zero => simp [e]
    | succ m =>
      rw [e, List.getElem?_cons_succ, List.getElem?_cons_succ, ih (n + 1) m,
        show n + 1 + m = n + (m + 1) from by omega]

theorem people_getElem (rows : List RawRow) (i : Nat) :
    (people rows)[i]? =
      ((rows.filter (fun r => rowSize r ≠ 0))[i]?).map (fun r => buildPerson i r) := by
  unfold people
  rw [peopleAux_getElem, Nat.zero_add]

/-- C2 (amended): after the normalization post-pass, the node built from
the i-th surviving row has parentId equal to the normalized manager email
exactly when that email is non-empty and occurs among the ids of the node
set — the node's own id included, so a person whose manager email equals
their own email keeps a self-reference rather than becoming a root. -/
theorem normalized_parent_iff (rows : List RawRow) (i : Nat) :
    ((normalizeParents (people rows))[i]?).map (fun q => q.parentId) =
      ((rows.filter (fun r => rowSize r ≠ 0))[i]?).map (fun r =>
        if mgrOfRow r ≠ "" ∧ mgrOfRow r ∈ (people rows).map (fun p => p.id)
        then some (mgrOfRow r) else none) := by
  rw [normalizeParents_eq, List.getElem?_map, people_getElem, Option.map_map,
    Option.map_map]
  cases hr : (rows.filter (fun r => rowSize r ≠ 0))[i]? with
  | none => rfl
  | some r =>
    rw [Option.map_some', Option.map_some', Option.some_inj]
    show (match (buildPerson i r).parentId with
      | some pid =>
        if pid ≠ "" ∧ pid ∈ (people rows).map (fun q => q.id) then some pid else none
      | none => none) =
      (if mgrOfRow r ≠ "" ∧ mgrOfRow r ∈ (people rows).map (fun p => p.id)
        then some (mgrOfRow r) else none)
    rw [buildPerson_parentId]
    by_cases hm : mgrOfRow r = ""
    · rw [if_pos hm, if_neg (fun hc => hc.1 hm)]
    · rw [if_neg hm]

/-- C2 witness: the amended description evaluated at index 1 of the
claim's two-row input, where the manager email survives as a
self-reference. -/
theorem normalized_parent_iff_witness :
    ((normalizeParents (people
      [[("Name", "A"), ("Manager Email", "")],
       [("Name", "B"), ("Work Email", "a@x.com"), ("Manager Email", "a@x.com")]]))[1]?).map
        (fun q => q.parentId) =
      ((([[("Name", "A"), ("Manager Email", "")],
        [("Name", "B"), ("Work Email", "a@x.com"),
          ("Manager Email", "a@x.com")]] : List RawRow).filter
            (fun r => rowSize r ≠ 0))[1]?).map (fun r =>
        if mgrOfRow r ≠ "" ∧ mgrOfRow r ∈ (people
          [[("Name", "A"), ("Manager Email", "")],
           [("Name", "B"), ("Work Email", "a@x.com"),
             ("Manager Email", "a@x.com")]]).map (fun p => p.id)
        then some (mgrOfRow r) else none) :=
  normalized_parent_iff
    [[("Name", "A"), ("Manager Email", "")],
     [("Name", "B"), ("Work Email", "a@x.com"), ("Manager Email", "a@x.com")]] 1

/-- C4 counterexample: two rows carrying the same work email produce two
nodes with the same id "a@x.com"; the builder neither detects nor
disambiguates them, so the hierarchy-view node set has a duplicate id. -/
theorem duplicate_email_counterexample :
    ¬ ((viewNodes ViewMode.hierarchy (normalizeParents (people
      [[("Name", "A"), ("Work Email", "a@x.com")],
       [("Name", "B"), ("Work Email", "a@x.com")]]))).map ChartNode.nodeId).Nodup := by
  decide

theorem str_append_left_cancel {a b c : String} (h : a ++ b = a ++ c) : b = c := by
  have hd := congrArg String.data h
  rw [String.data_append, String.data_append] at hd
  have h2 := List.append_cancel_left hd
  cases b
  cases c
  cases h2
  rfl

theorem pod_prepend_injective : Function.Injective (fun s => "pod:" ++ s) := by
  intro a b h
  exact str_append_left_cancel h

theorem pod_prepend_ne_root (s : String) : "pod:" ++ s ≠ "__root__" := by
  intro h
  have hd := congrArg String.data h
  rw [String.data_append,
    show ("pod:" : String).data = ['p', 'o', 'd', ':'] from rfl,
    show ("__root__" : String).data = ['_', '_', 'r', 'o', 'o', 't', '_', '_'] from rfl]
    at hd
  simp at hd

theorem not_strStarts_ne_pod_prepend (t : String) (h : strStarts t "pod:" = false)
    (s : String) : t ≠ "pod:" ++ s := by
  intro he
  rw [he] at h
  unfold strStarts at h
  rw [String.data_append] at h
  have htrue : List.isPrefixOf ("pod:" : String).data
      (("pod:" : String).data ++ s.data) = true :=
    List.isPrefixOf_iff_prefix.mpr (List.prefix_append _ _)
  rw [htrue] at h
  exact absurd h (by decide)

theorem nodup_hier_ids (ps : List PersonNode)
    (h1 : (ps.map (fun p => p.id)).Nodup)
    (h2 : "__root__" ∉ ps.map (fun p => p.id)) :
    ((hierarchyNodes ps).map (fun p => p.id)).Nodup := by
  rcases hierarchyNodes_map_id ps with hid | hid
  · rw [hid]
    exact h1
  · rw [hid]
    exact List.nodup_cons.mpr ⟨h2, h1⟩

/-- C4 (amended): the builder performs no duplicate-id detection, so ids
are pairwise distinct only under side conditions: when the per-row ids
are already pairwise distinct, no id equals the synthetic super-root id,
and no id begins with the pod-node marker, every view's output node set
has pairwise distinct ids.  Two rows with the same work email violate the
first condition and yield duplicate ids. -/
theorem view_ids_nodup (rows : List RawRow) (view : ViewMode)
    (h1 : ((people rows).map (fun p => p.id)).Nodup)
    (h2 : "__root__" ∉ (people rows).map (fun p => p.id))
    (h3 : ∀ p ∈ people rows, strStarts p.id "pod:" = false) :
    ((viewNodes view (normalizeParents (people rows))).map ChartNode.nodeId).Nodup := by
  have hnp : (normalizeParents (people rows)).map (fun p => p.id) =
      (people rows).map (fun p => p.id) := normalizeParents_map_id _
  have hhier : ((hierarchyNodes (normalizeParents (people rows))).map
      (fun p => p.id)).Nodup := by
    apply nodup_hier_ids
    · rw [hnp]
      exact h1
    · rw [hnp]
      exact h2
  have hhier_sub : ∀ x ∈ (hierarchyNodes (normalizeParents (people rows))).map
      (fun p => p.id),
      x = "__root__" ∨ x ∈ (people rows).map (fun p => p.id) := by
    intro x hx
    rcases hierarchyNodes_map_id (normalizeParents (people rows)) with hid | hid
    · rw [hid, hnp] at hx
      exact Or.inr hx
    · rw [hid, hnp] at hx
      rcases List.mem_cons.mp hx with he | hm
      · exact Or.inl he
      · exact Or.inr hm
  cases view with
  | hierarchy =>
    rw [show viewNodes ViewMode.hierarchy (normalizeParents (people rows)) =
        (hierarchyNodes (normalizeParents (people rows))).map ChartNode.person from rfl,
      map_person_nodeId]
    exact hhier
  | pod =>
    have e : viewNodes ViewMode.pod (normalizeParents (people rows)) =
        match rootId (normalizeParents (people rows)) with
        | none => (hierarchyNodes (normalizeParents (people rows))).map ChartNode.person
        | some rid =>
          buildPodView ((hierarchyNodes (normalizeParents (people rows))).map
            ChartNode.person) (podsSorted (normalizeParents (people rows))) rid := rfl
    cases hr : rootId (normalizeParents (people rows)) with
    | none =>
      rw [e, hr, map_person_nodeId]
      exact hhier
    | some rid =>
      rw [e, hr, buildPodView_ids, filterMap_personOf_map_person, List.nodup_append]
      refine ⟨List.Nodup.map pod_prepend_injective (nodup_podsSorted _), hhier, ?_⟩
      intro a ha hb
      obtain ⟨s, _, rfl⟩ := List.mem_map.mp ha
      rcases hhier_sub _ hb with he | hm
      · exact pod_prepend_ne_root s he
      · obtain ⟨p, hp, hpe⟩ := List.mem_map.mp hm
        exact not_strStarts_ne_pod_prepend p.id (h3 p hp) s hpe

/-- C4 witness: the amended uniqueness theorem applied to a three-row
input with distinct emails, two pods and two natural roots, in the pod
view. -/
theorem view_ids_nodup_witness :
    ((viewNodes ViewMode.pod (normalizeParents (people
      [[("Name", "Boss"), ("Work Email", "b@x.com"), ("Pod", "Eng")],
       [("Name", "Kid"), ("Work Email", "k@x.com"), ("Manager Email", "b@x.com"),
         ("Pod", "Ops")],
       [("Name", "Solo"), ("Work Email", "s@x.com"),
         ("Manager Email", "ghost@x.com")]]))).map ChartNode.nodeId).Nodup :=
  view_ids_nodup
    [[("Name", "Boss"), ("Work Email", "b@x.com"), ("Pod", "Eng")],
     [("Name", "Kid"), ("Work Email", "k@x.com"), ("Manager Email", "b@x.com"),
       ("Pod", "Ops")],
     [("Name", "Solo"), ("Work Email", "s@x.com"), ("Manager Email", "ghost@x.com")]]
    ViewMode.pod (by decide) (by decide) (by decide)

theorem personNode_ext {p q : PersonNode} (h1 : p.id = q.id) (h2 : p.parentId = q.parentId)
    (h3 : p.name = q.name) (h4 : p.email = q.email) (h5 : p.team = q.team)
    (h6 : p.location = q.location) (h7 : p.pod = q.pod) (h8 : p.photoUrl = q.photoUrl) :
    p = q := by
  cases p
  cases q
  dsimp only [] at h1 h2 h3 h4 h5 h6 h7 h8
  subst h1
  subst h2
  subst h3
  subst h4
  subst h5
  subst h6
  subst h7
  subst h8
  rfl

theorem podPatch_parent_managerSamePod (persons : List PersonNode) (p : PersonNode)
    (hpod : p.pod ≠ "") :
    (podPatch persons p).parentId =
      if managerSamePod persons p then p.parentId else some ("pod:" ++ p.pod) := by
  rw [podPatch_parent, if_neg hpod]
  unfold managerSamePod
  cases hpar : p.parentId with
  | none => rfl
  | some pid =>
    dsimp only []
    by_cases hz : pid = ""
    · rw [if_pos hz, if_pos hz]
      simp
    · rw [if_neg hz, if_neg hz]
      cases hby : byIdGet persons pid with
      | none => simp
      | some m =>
        dsimp only []
        by_cases hmp : m.pod = p.pod
        · rw [if_neg (fun hne => hne hmp), if_pos (by simp [hmp])]
        · rw [if_pos hmp, if_neg (by simp [hmp])]

theorem podPatch_managerSamePod_true (persons : List PersonNode) (p : PersonNode)
    (hpod : p.pod ≠ "") (hm : managerSamePod persons p = true) :
    podPatch persons p = p := by
  have hf := podPatch_fields persons p
  have hp := podPatch_parent_managerSamePod persons p hpod
  rw [hm] at hp
  exact personNode_ext hf.1 (by simpa using hp) hf.2.1 hf.2.2.1 hf.2.2.2.1
    hf.2.2.2.2.1 hf.2.2.2.2.2.1 hf.2.2.2.2.2.2

theorem podPatch_managerSamePod_false (persons : List PersonNode) (p : PersonNode)
    (hpod : p.pod ≠ "") (hm : managerSamePod persons p = false) :
    podPatch persons p = { p with parentId := some ("pod:" ++ p.pod) } := by
  have hf := podPatch_fields persons p
  have hp := podPatch_parent_managerSamePod persons p hpod
  rw [hm] at hp
  exact personNode_ext hf.1 (by simpa using hp) hf.2.1 hf.2.2.1 hf.2.2.2.1
    hf.2.2.2.2.1 hf.2.2.2.2.2.1 hf.2.2.2.2.2.2

theorem filterMap_podIdOf_map_person (l : List PersonNode) :
    (l.map ChartNode.person).filterMap ChartNode.podIdOf = [] := by
  induction l with
  | nil => rfl
  | cons p ps ih => simp [List.filterMap_cons, ChartNode.podIdOf, ih]

theorem filterMap_podIdOf_map_podGroup (pods : List String) (rid : String) :
    ((pods.map (fun pod => ChartNode.podGroup ("pod:" ++ pod) rid pod)).filterMap
      ChartNode.podIdOf) = pods.map (fun pod => "pod:" ++ pod) := by
  induction pods with
  | nil => rfl
  | cons s ss ih => simp [List.filterMap_cons, ChartNode.podIdOf, ih]

/-- C5 counterexample: a two-row CSV whose people manage each other in a
cycle leaves no natural root, so `rootId` is null and the pod view falls
back to the hierarchy node set (page.tsx line 212): although the person
set carries the distinct non-empty pod label "Eng", the output contains
no pod node at all, refuting the unconditional claim that the builder
creates exactly one PodNode per distinct non-empty pod value. -/
theorem pod_view_no_root_counterexample :
    ((viewNodes ViewMode.pod (normalizeParents (people
      [[("Name", "A"), ("Work Email", "a@x.com"), ("Manager Email", "b@x.com"),
        ("Pod", "Eng")],
       [("Name", "B"), ("Work Email", "b@x.com"),
        ("Manager Email", "a@x.com")]]))).filterMap ChartNode.podIdOf = [])
    ∧ podsSorted (normalizeParents (people
      [[("Name", "A"), ("Work Email", "a@x.com"), ("Manager Email", "b@x.com"),
        ("Pod", "Eng")],
       [("Name", "B"), ("Work Email", "b@x.com"),
        ("Manager Email", "a@x.com")]])) = ["Eng"]
    ∧ rootId (normalizeParents (people
      [[("Name", "A"), ("Work Email", "a@x.com"), ("Manager Email", "b@x.com"),
        ("Pod", "Eng")],
       [("Name", "B"), ("Work Email", "b@x.com"),
        ("Manager Email", "a@x.com")]])) = none := by
  refine ⟨?_, ?_, ?_⟩
  · decide
  · decide
  · decide

/-- C5 (amended): in the pod view, provided the person set has a root
(`rootId` non-null) the builder emits exactly one pod node per distinct
non-empty pod label of the person set and no pod node for the empty
label; a person with a non-empty pod keeps its manager as parent when
the looked-up manager shares the pod, and is reparented under its pod
node when it has no manager in the set or the manager's pod differs; a
person with an empty pod is kept unchanged.  When no natural root
exists, the pod view returns the hierarchy node set and creates no pod
nodes. -/
theorem pod_view_grouping (ps : List PersonNode) (rid : String)
    (h : rootId ps = some rid) :
    ((viewNodes ViewMode.pod ps).filterMap ChartNode.podIdOf =
      (podsSorted ps).map (fun pod => "pod:" ++ pod))
    ∧ (∀ s, s ∈ podsSorted ps ↔ s ≠ "" ∧ s ∈ ps.map (fun p => p.pod))
    ∧ (podsSorted ps).Nodup
    ∧ (∀ p ∈ hierarchyNodes ps, p.pod = "" →
        ChartNode.person p ∈ viewNodes ViewMode.pod ps)
    ∧ (∀ p ∈ hierarchyNodes ps, p.pod ≠ "" →
        managerSamePod (hierarchyNodes ps) p = true →
        ChartNode.person p ∈ viewNodes ViewMode.pod ps)
    ∧ (∀ p ∈ hierarchyNodes ps, p.pod ≠ "" →
        managerSamePod (hierarchyNodes ps) p = false →
        ChartNode.person { p with parentId := some ("pod:" ++ p.pod) } ∈
          viewNodes ViewMode.pod ps) := by
  have e : viewNodes ViewMode.pod ps =
      match rootId ps with
      | none => (hierarchyNodes ps).map ChartNode.person
      | some rid =>
        buildPodView ((hierarchyNodes ps).map ChartNode.person) (podsSorted ps) rid :=
    rfl
  rw [e, h]
  dsimp only []
  have hbv : buildPodView ((hierarchyNodes ps).map ChartNode.person) (podsSorted ps) rid =
      (podsSorted ps).map (fun pod => ChartNode.podGroup ("pod:" ++ pod) rid pod) ++
        ((((hierarchyNodes ps).map ChartNode.person).filterMap ChartNode.personOf).map
          (podPatch (((hierarchyNodes ps).map ChartNode.person).filterMap
            ChartNode.personOf))).map ChartNode.person := rfl
  rw [filterMap_personOf_map_person] at hbv
  rw [hbv]
  refine ⟨?_, mem_podsSorted ps, nodup_podsSorted ps, ?_, ?_, ?_⟩
  · rw [List.filterMap_append, filterMap_podIdOf_map_podGroup,
      List.map_map]
    have hemp : ((hierarchyNodes ps).map
        (ChartNode.person ∘ podPatch (hierarchyNodes ps))).filterMap
        ChartNode.podIdOf = [] := by
      rw [show (hierarchyNodes ps).map (ChartNode.person ∘ podPatch (hierarchyNodes ps)) =
          ((hierarchyNodes ps).map (podPatch (hierarchyNodes ps))).map ChartNode.person from
        (List.map_map _ _ _).symm]
      exact filterMap_podIdOf_map_person _
    rw [hemp, List.append_nil]
  · intro p hp hpe
    apply List.mem_append.mpr
    right
    apply List.mem_map.mpr
    refine ⟨podPatch (hierarchyNodes ps) p, List.mem_map.mpr ⟨p, hp, rfl⟩, ?_⟩
    rw [show podPatch (hierarchyNodes ps) p = p from by
      unfold podPatch
      rw [if_pos hpe]]
  · intro p hp hpe hm
    apply List.mem_append.mpr
    right
    apply List.mem_map.mpr
    refine ⟨podPatch (hierarchyNodes ps) p, List.mem_map.mpr ⟨p, hp, rfl⟩, ?_⟩
    rw [podPatch_managerSamePod_true _ _ hpe hm]
  · intro p hp hpe hm
    apply List.mem_append.mpr
    right
    apply List.mem_map.mpr
    refine ⟨podPatch (hierarchyNodes ps) p, List.mem_map.mpr ⟨p, hp, rfl⟩, ?_⟩
    rw [podPatch_managerSamePod_false _ _ hpe hm]

/-- C5 witness: the grouping theorem applied to a two-person set with one
root and one pod, projecting the pod-node characterization. -/
theorem pod_view_grouping_witness :
    (viewNodes ViewMode.pod
        [PersonNode.mk "a" none "A" "" "" "" "Eng" "",
         PersonNode.mk "b" (some "a") "B" "" "" "" "" ""]).filterMap ChartNode.podIdOf =
      (podsSorted [PersonNode.mk "a" none "A" "" "" "" "Eng" "",
        PersonNode.mk "b" (some "a") "B" "" "" "" "" ""]).map
        (fun pod => "pod:" ++ pod) :=
  (pod_view_grouping
    [PersonNode.mk "a" none "A" "" "" "" "Eng" "",
     PersonNode.mk "b" (some "a") "B" "" "" "" "" ""] "a" (by decide)).1
